import Mathlib

/-!
Shallow embedding of `facebook_sdk/request.py` (classes `FacebookRequest` and
`FacebookBatchRequest`) from the `facebook-py-sdk` repository, together with
the Python-level helpers the module uses (truthiness of optional strings,
`str()`, insertion-ordered dicts, and `urllib`'s `urlencode`/`quote_plus`).

Python values are modelled as follows: an optional string (`None` or `str`)
is `Option String`; a `dict` whose keys and values are strings is an
insertion-ordered association list `List (String × String)` with the update
semantics of `dict.update`; raising `FacebookSDKException` is modelled with
`Except String` (the message) or, where the Python code mutates state before
raising, with a pair of the resulting state and an optional error message.
-/

namespace FacebookSDK

/-- Python truthiness of an optional string: `None` and `""` are falsy. -/
def pyTruthyOpt : Option String → Bool
  | none => false
  | some s => s ≠ ""

/-- Python `str()` applied to an optional string: `str(None) = "None"`. -/
def pyStrOpt : Option String → String
  | none => "None"
  | some s => s

/-- The `name` argument of `FacebookBatchRequest.add`: `None`, a string
(a dict key), or an integer (a list index). -/
inductive PyName where
  | noneV : PyName
  | strV : String → PyName
  | intV : Nat → PyName
deriving DecidableEq, Repr

/-- Python `str()` of a `name` argument. -/
def PyName.strOf : PyName → String
  | .noneV => "None"
  | .strV s => s
  | .intV n => toString n

/-- `d[k] = v` on an insertion-ordered dict: replace in place, else append
(the semantics of `dict.update` for a single key). -/
def setKey : List (String × String) → String → String → List (String × String)
  | [], k, v => [(k, v)]
  | (k1, v1) :: rest, k, v =>
    if k1 = k then (k, v) :: rest else (k1, v1) :: setKey rest k v

/-- `d.get(k)` on an insertion-ordered dict. -/
def lookupKey : List (String × String) → String → Option String
  | [], _ => none
  | (k1, v1) :: rest, k => if k1 = k then some v1 else lookupKey rest k

/-- Modelled from the spec: `facebook_sdk.constants` is not among the staged
source files; the spec fixes the method enum to GET/POST/DELETE. -/
def METHOD_GET : String := "GET"

/-- Modelled from the spec: the POST member of the method enum. -/
def METHOD_POST : String := "POST"

/-- Modelled from the spec: the DELETE member of the method enum. -/
def METHOD_DELETE : String := "DELETE"

/-- Modelled from the spec: `facebook_sdk.constants.DEFAULT_GRAPH_VERSION` is
not among the staged source files; the spec only says the graph version
defaults to a constant, whose value nothing here depends on. -/
def DEFAULT_GRAPH_VERSION : String := "v2.12"

/-- `MAX_REQUEST_BY_BATCH = 50` (request.py, line 5). -/
def MAX_REQUEST_BY_BATCH : Nat := 50

/-- Modelled from the spec: `facebook_sdk.utils.force_slash_prefix` is not
among the staged source files; the spec says: if the string does not already
start with `/`, prepend one; never double a slash. -/
def force_slash_prefix (s : String) : String :=
  if s.startsWith "/" then s else "/" ++ s

/-! ### The byte level of `urllib.parse.urlencode` / `quote_plus`

`urlencode` joins `quote_plus(k) + "=" + quote_plus(v)` items with `&`;
`quote_plus` encodes the string as UTF-8 bytes, keeps the always-safe bytes
(ASCII letters, digits, `_`, `.`, `-`, `~`), maps a space to `+` and
percent-escapes everything else with uppercase hex digits. -/

/-- The UTF-8 bytes of one code point. -/
def utf8EncodeChar (n : Nat) : List Nat :=
  if n < 128 then [n]
  else if n < 2048 then [192 + n / 64, 128 + n % 64]
  else if n < 65536 then [224 + n / 4096, 128 + n / 64 % 64, 128 + n % 64]
  else [240 + n / 262144, 128 + n / 4096 % 64, 128 + n / 64 % 64, 128 + n % 64]

/-- The UTF-8 bytes of a list of characters. -/
def utf8Bytes (cs : List Char) : List Nat :=
  (cs.map (fun c => utf8EncodeChar c.toNat)).flatten

/-- The bytes `quote_plus` passes through unescaped: ASCII letters, digits,
and `_`, `.`, `-`, `~`. -/
def isSafeByte (b : Nat) : Bool :=
  (65 ≤ b && b ≤ 90) || (97 ≤ b && b ≤ 122) || (48 ≤ b && b ≤ 57) ||
    b == 95 || b == 46 || b == 45 || b == 126

/-- Uppercase hexadecimal digit. -/
def hexUpper (n : Nat) : Char :=
  if n < 10 then Char.ofNat (48 + n) else Char.ofNat (55 + n)

/-- How `quote_plus` renders one byte. -/
def quoteByte (b : Nat) : List Char :=
  if isSafeByte b then [Char.ofNat b]
  else if b == 32 then ['+']
  else ['%', hexUpper (b / 16), hexUpper (b % 16)]

/-- `urllib.parse.quote_plus` on the characters of a string. -/
def quotePlusChars (cs : List Char) : List Char :=
  ((utf8Bytes cs).map quoteByte).flatten

/-- `urllib.parse.quote_plus`. -/
def quote_plus (s : String) : String :=
  ⟨quotePlusChars s.data⟩

/-- Join character groups with a separator (`sep.join` in Python). -/
def joinSep (sep : Char) : List (List Char) → List Char
  | [] => []
  | [g] => g
  | g :: g2 :: rest => g ++ sep :: joinSep sep (g2 :: rest)

/-- The characters of one `k=v` item of `urlencode`. -/
def pairChars (p : String × String) : List Char :=
  quotePlusChars p.1.data ++ '=' :: quotePlusChars p.2.data

/-- `urllib.parse.urlencode` on an insertion-ordered dict. -/
def urlencode (ps : List (String × String)) : String :=
  ⟨joinSep '&' (ps.map pairChars)⟩

/-! ### Decoding (`urllib.parse.parse_qsl` / `unquote_plus`), used to state
that `url_encode_body` round-trips. The source never decodes; these functions
formalise the reading direction of the form-encoding contract. -/

/-- The value of one hexadecimal digit character. -/
def hexVal (c : Char) : Option Nat :=
  if 48 ≤ c.toNat && c.toNat ≤ 57 then some (c.toNat - 48)
  else if 65 ≤ c.toNat && c.toNat ≤ 70 then some (c.toNat - 55)
  else if 97 ≤ c.toNat && c.toNat ≤ 102 then some (c.toNat - 87)
  else none

/-- Read one `quote_plus`-encoded byte from the front: `+` is a space,
`%XX` is the byte `XX`, any other character is its own code point. Returns
the byte and the remaining characters. -/
def unquoteOne (c : Char) (rest : List Char) : Option (Nat × List Char) :=
  if c = '+' then some (32, rest)
  else if c = '%' then
    match rest with
    | h1 :: h2 :: rest2 =>
      match hexVal h1, hexVal h2 with
      | some d1, some d2 => some (16 * d1 + d2, rest2)
      | _, _ => none
    | _ => none
  else some (c.toNat, rest)

/-- Read a whole `quote_plus`-encoded character sequence back into bytes;
the fuel is an upper bound on the number of bytes (each decoded byte
consumes at least one character, so the input length suffices). -/
def unquoteAux : Nat → List Char → Option (List Nat)
  | _, [] => some []
  | 0, _ :: _ => none
  | fuel + 1, c :: rest =>
    match unquoteOne c rest with
    | some p => (unquoteAux fuel p.2).map (p.1 :: ·)
    | none => none

/-- Read a `quote_plus`-encoded character sequence back into bytes. -/
def unquoteBytes (cs : List Char) : Option (List Nat) :=
  unquoteAux cs.length cs

/-- Decode one UTF-8-encoded code point from the front of a byte sequence,
returning it and the remaining bytes. -/
def utf8DecodeOne (b : Nat) (bs : List Nat) : Option (Nat × List Nat) :=
  if b < 128 then some (b, bs)
  else if b < 192 then none
  else if b < 224 then
    match bs with
    | b2 :: bs2 =>
      if 128 ≤ b2 && b2 < 192 then some ((b - 192) * 64 + (b2 - 128), bs2) else none
    | [] => none
  else if b < 240 then
    match bs with
    | b2 :: b3 :: bs2 =>
      if (128 ≤ b2 && b2 < 192) && (128 ≤ b3 && b3 < 192) then
        some (((b - 224) * 64 + (b2 - 128)) * 64 + (b3 - 128), bs2)
      else none
    | _ => none
  else if b < 248 then
    match bs with
    | b2 :: b3 :: b4 :: bs2 =>
      if (128 ≤ b2 && b2 < 192) && ((128 ≤ b3 && b3 < 192) && (128 ≤ b4 && b4 < 192)) then
        some ((((b - 240) * 64 + (b2 - 128)) * 64 + (b3 - 128)) * 64 + (b4 - 128), bs2)
      else none
    | _ => none
  else none

/-- Decode a UTF-8 byte sequence into code points; the fuel is an upper
bound on the number of code points (each consumes at least one byte, so the
input length suffices). -/
def utf8DecodeAux : Nat → List Nat → Option (List Nat)
  | _, [] => some []
  | 0, _ :: _ => none
  | fuel + 1, b :: bs =>
    match utf8DecodeOne b bs with
    | some p => (utf8DecodeAux fuel p.2).map (p.1 :: ·)
    | none => none

/-- Decode a UTF-8 byte sequence into code points. -/
def utf8DecodeList (bs : List Nat) : Option (List Nat) :=
  utf8DecodeAux bs.length bs

/-- `urllib.parse.unquote_plus`. -/
def unquote_plus (s : String) : Option String :=
  match unquoteBytes s.data with
  | none => none
  | some bs =>
    match utf8DecodeList bs with
    | none => none
    | some cps => some ⟨cps.map Char.ofNat⟩

/-- Split a character sequence at every occurrence of a separator. -/
def splitSep (sep : Char) : List Char → List (List Char)
  | [] => [[]]
  | c :: cs =>
    match splitSep sep cs with
    | [] => [[c]]
    | g :: gs => if c = sep then [] :: g :: gs else (c :: g) :: gs

/-- Split a character sequence at the first occurrence of a separator. -/
def splitFirst (sep : Char) : List Char → Option (List Char × List Char)
  | [] => none
  | c :: cs =>
    if c = sep then some ([], cs)
    else
      match splitFirst sep cs with
      | some p => some (c :: p.1, p.2)
      | none => none

/-- Decode one `k=v` item of a query string. -/
def decodePair (g : List Char) : Option (String × String) :=
  match splitFirst '=' g with
  | none => none
  | some p =>
    match unquote_plus ⟨p.1⟩, unquote_plus ⟨p.2⟩ with
    | some k, some v => some (k, v)
    | _, _ => none

/-- Decode a form-encoded query string into its key/value pairs
(`urllib.parse.parse_qsl` on well-formed input). -/
def decodeQS (s : String) : Option (List (String × String)) :=
  (splitSep '&' s.data).mapM decodePair

/-! ### `FacebookRequest` (request.py, lines 18–87) -/

/-- The state of a `FacebookRequest` after `__init__` (the `app` reference
is irrelevant to every property below and omitted; Python's optional
`method`/`endpoint`, `None` by default, are modelled as strings, `None`
behaving as a string that is no member of the method enum). -/
structure FacebookRequest where
  access_token : Option String := none
  method : String := ""
  endpoint : String := ""
  graph_version : String := DEFAULT_GRAPH_VERSION
  headers : List (String × String) := []
  _params : List (String × String) := []
deriving DecidableEq, Repr

/-- The `params` property (request.py, lines 40–50): a copy of the stored
params for every method but POST, then `access_token` injected when the
token is truthy. -/
def FacebookRequest.params (r : FacebookRequest) : List (String × String) :=
  let ps := if r.method ≠ METHOD_POST then r._params else []
  if pyTruthyOpt r.access_token then setKey ps "access_token" (pyStrOpt r.access_token)
  else ps

/-- The `post_params` property (request.py, lines 52–61): a copy of the
stored params when the method is POST, else `None`. -/
def FacebookRequest.post_params (r : FacebookRequest) : Option (List (String × String)) :=
  if r.method = METHOD_POST then some r._params else none

/-- The `url` property (request.py, lines 63–69). -/
def FacebookRequest.url (r : FacebookRequest) : String :=
  force_slash_prefix r.graph_version ++ force_slash_prefix r.endpoint

/-- The `url_encode_body` property (request.py, lines 71–79):
`urlencode(params) if params else None` on `post_params`. -/
def FacebookRequest.url_encode_body (r : FacebookRequest) : Option String :=
  match r.post_params with
  | some ps => if ps.isEmpty then none else some (urlencode ps)
  | none => none

/-! ### `FacebookBatchRequest` (request.py, lines 90–215) -/

/-- The state of a `FacebookBatchRequest`: the fields inherited from
`FacebookRequest` (its `method` is fixed to POST and its `endpoint` to the
empty string by `__init__`, so only the remaining fields vary) plus the
ordered list of named child requests. -/
structure FacebookBatchRequest where
  access_token : Option String := none
  graph_version : String := DEFAULT_GRAPH_VERSION
  headers : List (String × String) := []
  _params : List (String × String) := []
  requests : List (String × FacebookRequest) := []
deriving DecidableEq, Repr

/-- `_add_access_token` (request.py, lines 143–155): a falsy child token is
replaced by the batch token; if that is falsy too, the SDK exception is
raised. -/
def FacebookBatchRequest._add_access_token (b : FacebookBatchRequest)
    (r : FacebookRequest) : Except String FacebookRequest :=
  if !pyTruthyOpt r.access_token then
    if !pyTruthyOpt b.access_token then
      .error "Missing access token on FacebookRequest and FacebookBatchRequest"
    else .ok { r with access_token := b.access_token }
  else .ok r

/-- The child request as it is stored by `add`: unchanged when its token is
truthy, else carrying the batch token (the successful outcome of
`_add_access_token`). -/
def resolveToken (b : FacebookBatchRequest) (r : FacebookRequest) : FacebookRequest :=
  if pyTruthyOpt r.access_token then r else { r with access_token := b.access_token }

/-- The single-request branch of `add` (request.py, lines 133–141): resolve
the token, then append `{'name': str(name), 'request': request}`; on failure
the batch is returned unchanged next to the raised message. -/
def FacebookBatchRequest.addSingle (b : FacebookBatchRequest) (r : FacebookRequest)
    (name : PyName) : FacebookBatchRequest × Option String :=
  match b._add_access_token r with
  | .error e => (b, some e)
  | .ok r2 => ({ b with requests := b.requests ++ [(name.strOf, r2)] }, none)

/-- The list branch of `add` (request.py, lines 123–126): each element is
added with its position as its name; `idx` carries `enumerate`'s counter.
A raise stops the loop, keeping the already-appended prefix. -/
def FacebookBatchRequest.addList (b : FacebookBatchRequest)
    (rs : List FacebookRequest) (idx : Nat) : FacebookBatchRequest × Option String :=
  match rs with
  | [] => (b, none)
  | r :: rest =>
    match b.addSingle r (.intV idx) with
    | (b2, none) => b2.addList rest (idx + 1)
    | (b2, some e) => (b2, some e)

/-- The dict branch of `add` (request.py, lines 128–131): each value is
added with its key as its name, in insertion order. -/
def FacebookBatchRequest.addDict (b : FacebookBatchRequest)
    (kvs : List (String × FacebookRequest)) : FacebookBatchRequest × Option String :=
  match kvs with
  | [] => (b, none)
  | (k, r) :: rest =>
    match b.addSingle r (.strV k) with
    | (b2, none) => b2.addDict rest
    | (b2, some e) => (b2, some e)

/-- The three shapes `add` accepts (request.py, lines 116–134); any other
argument type raises before touching the batch. -/
inductive AddArg where
  | single : FacebookRequest → AddArg
  | list : List FacebookRequest → AddArg
  | dict : List (String × FacebookRequest) → AddArg

/-- `add` (request.py, lines 116–141), dispatching on the argument shape. -/
def FacebookBatchRequest.add (b : FacebookBatchRequest) (arg : AddArg)
    (name : PyName) : FacebookBatchRequest × Option String :=
  match arg with
  | .list rs => b.addList rs 0
  | .dict kvs => b.addDict kvs
  | .single r => b.addSingle r name

/-- A sequence of single `add` calls, stopping at the first raise. -/
def FacebookBatchRequest.addSeq (b : FacebookBatchRequest)
    (cmds : List (FacebookRequest × PyName)) : FacebookBatchRequest × Option String :=
  match cmds with
  | [] => (b, none)
  | (r, n) :: rest =>
    match b.addSingle r n with
    | (b2, none) => b2.addSeq rest
    | (b2, some e) => (b2, some e)

/-- One batch-item descriptor (the dict built by
`request_entity_to_batch_array`): `body`, `name` and `access_token` are
conditional keys, `none` standing for the key being absent. -/
structure BatchItem where
  headers : List (String × String)
  method : String
  relative_url : String
  body : Option String := none
  name : Option String := none
  access_token : Option String := none
deriving DecidableEq, Repr

/-- `request_entity_to_batch_array` (request.py, lines 164–188). -/
def FacebookBatchRequest.request_entity_to_batch_array (b : FacebookBatchRequest)
    (request : FacebookRequest) (request_name : Option String) : BatchItem :=
  { headers := request.headers
    method := request.method
    relative_url := request.url
    body :=
      match request.url_encode_body with
      | some s => if s = "" then none else some s
      | none => none
    name := request_name
    access_token :=
      if request.access_token ≠ b.access_token then some (pyStrOpt request.access_token)
      else none }

/-- Minimal JSON string escaping (`json.dumps` on the plain strings this
module emits). -/
def jsonEscapeChar (c : Char) : List Char :=
  if c = '"' then ['\\', '"'] else if c = '\\' then ['\\', '\\'] else [c]

/-- A JSON string literal. -/
def jsonString (s : String) : String :=
  ⟨'"' :: ((s.data.map jsonEscapeChar).flatten ++ ['"'])⟩

/-- A JSON object of string keys and values, in insertion order
(`json.dumps` with its default separators). -/
def jsonDict (d : List (String × String)) : String :=
  "\x7b" ++ String.intercalate ", " (d.map (fun p => jsonString p.1 ++ ": " ++ jsonString p.2)) ++ "\x7d"

/-- `json.dumps` of one batch-item descriptor, keys in the insertion order
of `request_entity_to_batch_array`, conditional keys omitted when absent. -/
def BatchItem.toJson (d : BatchItem) : String :=
  let fields :=
    [jsonString "headers" ++ ": " ++ jsonDict d.headers,
     jsonString "method" ++ ": " ++ jsonString d.method,
     jsonString "relative_url" ++ ": " ++ jsonString d.relative_url] ++
    (match d.body with
     | some s => [jsonString "body" ++ ": " ++ jsonString s]
     | none => []) ++
    (match d.name with
     | some s => [jsonString "name" ++ ": " ++ jsonString s]
     | none => []) ++
    (match d.access_token with
     | some s => [jsonString "access_token" ++ ": " ++ jsonString s]
     | none => [])
  "\x7b" ++ String.intercalate ", " fields ++ "\x7d"

/-- The list comprehension inside `requests_to_json` (request.py, lines
192–197): one descriptor per stored entry, in order; each entry's stored
name is a string, so it is passed non-absent. -/
def FacebookBatchRequest.requestsToBatchArray
    (b : FacebookBatchRequest) : List BatchItem :=
  b.requests.map (fun e => b.request_entity_to_batch_array e.2 (some e.1))

/-- `requests_to_json` (request.py, lines 190–199). -/
def FacebookBatchRequest.requests_to_json (b : FacebookBatchRequest) : String :=
  "[" ++ String.intercalate ", " (b.requestsToBatchArray.map BatchItem.toJson) ++ "]"

/-- `validate_batch_request_count` (request.py, lines 201–212). -/
def FacebookBatchRequest.validate_batch_request_count
    (b : FacebookBatchRequest) : Except String Unit :=
  let requests_count := b.requests.length
  if requests_count = 0 then .error "Empty batch requests"
  else if requests_count > MAX_REQUEST_BY_BATCH then
    .error ("The limit of requests in batch is " ++ toString MAX_REQUEST_BY_BATCH)
  else .ok ()

/-! ### Concrete sample data used by witnesses and counterexamples -/

/-- A POST request whose stored params already use the key `access_token`
and whose own token is a different string. -/
def cexPostRequest : FacebookRequest :=
  { method := METHOD_POST, access_token := some "tok2",
    _params := [("access_token", "tok1")] }

/-- A batch carrying its own access token. -/
def wBatch : FacebookBatchRequest := { access_token := some "T" }

/-- Two single `add` calls: a token-less unnamed request and a named request
with its own token. -/
def wCmds : List (FacebookRequest × PyName) :=
  [({ method := METHOD_GET, endpoint := "me" }, PyName.noneV),
   ({ method := METHOD_GET, endpoint := "me/friends", access_token := some "U" },
    PyName.strV "friends")]

/-! ## Helper lemmas about the truthiness model and the dict model -/

theorem pyTruthyOpt_none : pyTruthyOpt none = false := rfl

theorem pyTruthyOpt_some (s : String) (h : s ≠ "") : pyTruthyOpt (some s) = true := by
  simp [pyTruthyOpt, h]

theorem pyTruthyOpt_some_empty : pyTruthyOpt (some "") = false := by
  simp [pyTruthyOpt]

theorem lookupKey_setKey_self (d : List (String × String)) (k v : String) :
    lookupKey (setKey d k v) k = some v := by
  induction d with
  | nil => simp [setKey, lookupKey]
  | cons p rest ih =>
    by_cases h : p.1 = k
    · simp [setKey, lookupKey, h]
    · simp [setKey, lookupKey, h, ih]

theorem lookupKey_setKey_ne (d : List (String × String)) (k v k2 : String)
    (h : k2 ≠ k) : lookupKey (setKey d k v) k2 = lookupKey d k2 := by
  have h2 : k ≠ k2 := Ne.symm h
  induction d with
  | nil => simp [setKey, lookupKey, h2]
  | cons p rest ih =>
    by_cases hp : p.1 = k
    · simp [setKey, lookupKey, hp, h2]
    · simp only [setKey, if_neg hp, lookupKey]
      by_cases hp2 : p.1 = k2 <;> simp [hp2, ih]

/-! ## Helper lemmas about `addSingle` -/

/-- A successful `add` of a single request appends exactly one entry, whose
request is the token-resolved child. -/
theorem addSingle_ok (b : FacebookBatchRequest) (r : FacebookRequest) (nm : PyName)
    (b2 : FacebookBatchRequest) (h : b.addSingle r nm = (b2, none)) :
    b2 = { b with requests := b.requests ++ [(nm.strOf, resolveToken b r)] } := by
  unfold FacebookBatchRequest.addSingle FacebookBatchRequest._add_access_token at h
  unfold resolveToken
  by_cases hr : pyTruthyOpt r.access_token
  · simp [hr] at h
    simp [hr, ← h]
  · by_cases hb : pyTruthyOpt b.access_token
    · simp [hr, hb] at h
      simp [hr, ← h]
    · simp [hr, hb] at h

/-- `addSingle` never changes the batch's own token. -/
theorem addSingle_token (b : FacebookBatchRequest) (r : FacebookRequest) (nm : PyName)
    (b2 : FacebookBatchRequest) (e : Option String) (h : b.addSingle r nm = (b2, e)) :
    b2.access_token = b.access_token := by
  unfold FacebookBatchRequest.addSingle FacebookBatchRequest._add_access_token at h
  by_cases hr : pyTruthyOpt r.access_token
  · simp [hr] at h; simp [← h.1]
  · by_cases hb : pyTruthyOpt b.access_token
    · simp [hr, hb] at h; simp [← h.1]
    · simp [hr, hb] at h; simp [← h.1]

theorem resolveToken_congr (b1 b : FacebookBatchRequest)
    (h : b1.access_token = b.access_token) (r : FacebookRequest) :
    resolveToken b1 r = resolveToken b r := by
  unfold resolveToken
  rw [h]

/-! ## C1 -/

/-- C1: adding a single `FacebookRequest` with no access token to a batch
whose token is set stores the child with the batch's token; when the batch
has no token either, the SDK exception is raised and the request list is
unchanged. -/
theorem add_resolves_child_token (b : FacebookBatchRequest) (r : FacebookRequest)
    (nm : PyName) :
    (r.access_token = none → pyTruthyOpt b.access_token = true →
      b.addSingle r nm =
        ({ b with requests :=
            b.requests ++ [(nm.strOf, { r with access_token := b.access_token })] }, none)) ∧
    (r.access_token = none → b.access_token = none →
      b.addSingle r nm =
        (b, some "Missing access token on FacebookRequest and FacebookBatchRequest")) := by
  constructor
  · intro hr hb
    simp [FacebookBatchRequest.addSingle, FacebookBatchRequest._add_access_token,
      hr, hb, pyTruthyOpt_none]
  · intro hr hb
    simp [FacebookBatchRequest.addSingle, FacebookBatchRequest._add_access_token,
      hr, hb, pyTruthyOpt_none]

/-! ## C10 -/

/-- C10: a child whose access token is the empty string (falsy) is treated
exactly like a token-less child: the batch token replaces it when the batch
token is truthy, the SDK exception is raised when it is not, and an
empty-string token is never preserved (a truthy batch token is not the empty
string). -/
theorem add_empty_string_token (b : FacebookBatchRequest) (r : FacebookRequest)
    (nm : PyName) :
    (r.access_token = some "" → pyTruthyOpt b.access_token = true →
      b.addSingle r nm =
        ({ b with requests :=
            b.requests ++ [(nm.strOf, { r with access_token := b.access_token })] }, none)) ∧
    (r.access_token = some "" → pyTruthyOpt b.access_token = false →
      b.addSingle r nm =
        (b, some "Missing access token on FacebookRequest and FacebookBatchRequest")) ∧
    (pyTruthyOpt b.access_token = true → b.access_token ≠ some "") := by
  refine ⟨?_, ?_, ?_⟩
  · intro hr hb
    simp [FacebookBatchRequest.addSingle, FacebookBatchRequest._add_access_token,
      hr, hb, pyTruthyOpt_some_empty]
  · intro hr hb
    simp [FacebookBatchRequest.addSingle, FacebookBatchRequest._add_access_token,
      hr, hb, pyTruthyOpt_some_empty]
  · intro hb he
    rw [he, pyTruthyOpt_some_empty] at hb
    exact Bool.false_ne_true hb

/-! ## C4 -/

/-- C4: whenever the access token is present (truthy), the `params` property
maps the key `access_token` to the token's string value, for every method
including POST. -/
theorem params_includes_access_token (r : FacebookRequest) (t : String)
    (h : r.access_token = some t) (ht : t ≠ "") :
    lookupKey (FacebookRequest.params r) "access_token" = some t := by
  unfold FacebookRequest.params
  rw [h, pyTruthyOpt_some t ht]
  simp [pyStrOpt, lookupKey_setKey_self]

/-- C4 witness: the token also reaches the query params of a concrete POST
request. -/
theorem params_includes_access_token_witness :
    lookupKey
      (FacebookRequest.params
        { method := METHOD_POST, access_token := some "tok", _params := [("k", "v")] })
      "access_token" = some "tok" :=
  params_includes_access_token
    { method := METHOD_POST, access_token := some "tok", _params := [("k", "v")] }
    "tok" rfl (by decide)

/-! ## C5 -/

/-- C5: `validate_batch_request_count` succeeds exactly for 1 to 50 stored
requests, raises the empty-batch error at zero and the limit error above
50. -/
theorem validate_batch_request_count_spec (b : FacebookBatchRequest) :
    (b.validate_batch_request_count = .ok () ↔
      1 ≤ b.requests.length ∧ b.requests.length ≤ 50) ∧
    (b.requests.length = 0 →
      b.validate_batch_request_count = .error "Empty batch requests") ∧
    (b.requests.length > 50 →
      b.validate_batch_request_count = .error "The limit of requests in batch is 50") := by
  have hmsg : ("The limit of requests in batch is " ++ toString MAX_REQUEST_BY_BATCH)
      = "The limit of requests in batch is 50" := by decide
  refine ⟨⟨?_, ?_⟩, ?_, ?_⟩
  · intro h
    by_cases h0 : b.requests.length = 0
    · simp [FacebookBatchRequest.validate_batch_request_count, h0] at h
    · by_cases h50 : b.requests.length > MAX_REQUEST_BY_BATCH
      · simp [FacebookBatchRequest.validate_batch_request_count, h0, h50] at h
      · unfold MAX_REQUEST_BY_BATCH at h50
        omega
  · intro h
    have h0 : ¬ b.requests.length = 0 := by omega
    have h50 : ¬ b.requests.length > MAX_REQUEST_BY_BATCH := by
      unfold MAX_REQUEST_BY_BATCH
      omega
    simp [FacebookBatchRequest.validate_batch_request_count, h0, h50]
  · intro h0
    simp [FacebookBatchRequest.validate_batch_request_count, h0]
  · intro h50
    have h0 : ¬ b.requests.length = 0 := by omega
    have h50m : b.requests.length > MAX_REQUEST_BY_BATCH := by
      unfold MAX_REQUEST_BY_BATCH
      omega
    simp [FacebookBatchRequest.validate_batch_request_count, h0, h50m, hmsg]

/-! ## C9 -/

/-- C9: `post_params` is the stored params exactly when the method is POST,
and the explicit absence marker `none` (distinguishable from an empty
mapping) for every other method. -/
theorem post_params_spec (r : FacebookRequest) :
    (r.post_params = some r._params ↔ r.method = METHOD_POST) ∧
    (r.method ≠ METHOD_POST → r.post_params = none) ∧
    (r.method ≠ METHOD_POST → r.post_params ≠ some []) := by
  unfold FacebookRequest.post_params
  by_cases h : r.method = METHOD_POST <;> simp [h]

/-! ## C3 -/

/-- C3 counterexample: on a POST request whose stored params contain the
user-supplied key `access_token` (and whose token is set), the `params`
property does contain that stored key, so the claim that no user-supplied
key from the stored params appears in `params` fails at this input. -/
theorem params_post_counterexample :
    "access_token" ∈ cexPostRequest._params.map Prod.fst ∧
    lookupKey (FacebookRequest.params cexPostRequest) "access_token" ≠ none := by
  decide

/-- C3 (amended): for POST, `params` contains no user-supplied key from the
stored params other than `access_token` — every key of `params` is
`access_token`, injected from the token — and the user-supplied params appear
exactly in `post_params`; for GET or DELETE, `params` agrees with the stored
params on every key except `access_token`, which maps to the token when one
is set (and is untouched otherwise), and `post_params` is absent, so the body
is empty. -/
theorem params_method_invariant (r : FacebookRequest) :
    (r.method = METHOD_POST →
      (∀ k, k ∈ r._params.map Prod.fst → k ≠ "access_token" →
        lookupKey (FacebookRequest.params r) k = none) ∧
      (∀ p, p ∈ FacebookRequest.params r → p.1 = "access_token") ∧
      r.post_params = some r._params) ∧
    ((r.method = METHOD_GET ∨ r.method = METHOD_DELETE) →
      (∀ k, k ≠ "access_token" →
        lookupKey (FacebookRequest.params r) k = lookupKey r._params k) ∧
      (∀ t, r.access_token = some t → t ≠ "" →
        lookupKey (FacebookRequest.params r) "access_token" = some t) ∧
      (pyTruthyOpt r.access_token = false → FacebookRequest.params r = r._params) ∧
      r.post_params = none ∧ r.url_encode_body = none) := by
  constructor
  · intro hm
    have hbase : FacebookRequest.params r =
        (if pyTruthyOpt r.access_token then
          setKey [] "access_token" (pyStrOpt r.access_token) else []) := by
      unfold FacebookRequest.params
      simp [hm]
    refine ⟨?_, ?_, ?_⟩
    · intro k _ hk
      have hk2 : "access_token" ≠ k := Ne.symm hk
      rw [hbase]
      by_cases ht : pyTruthyOpt r.access_token <;>
        simp [ht, setKey, lookupKey, hk2]
    · intro p hp
      rw [hbase] at hp
      by_cases ht : pyTruthyOpt r.access_token
      · simp [ht, setKey] at hp
        rw [hp]
      · simp [ht] at hp
    · unfold FacebookRequest.post_params
      simp [hm]
  · intro hm
    have hne : r.method ≠ METHOD_POST := by
      rcases hm with h | h <;> rw [h] <;> decide
    have hbase : FacebookRequest.params r =
        (if pyTruthyOpt r.access_token then
          setKey r._params "access_token" (pyStrOpt r.access_token) else r._params) := by
      unfold FacebookRequest.params
      simp [hne]
    refine ⟨?_, ?_, ?_, ?_, ?_⟩
    · intro k hk
      rw [hbase]
      by_cases ht : pyTruthyOpt r.access_token
      · simp [ht, lookupKey_setKey_ne _ _ _ _ hk]
      · simp [ht]
    · intro t htok htne
      rw [hbase, htok, pyTruthyOpt_some t htne]
      simp [pyStrOpt, lookupKey_setKey_self]
    · intro ht
      rw [hbase]
      simp [ht]
    · unfold FacebookRequest.post_params
      simp [hne]
    · unfold FacebookRequest.url_encode_body FacebookRequest.post_params
      simp [hne]

/-! ## Helper lemmas about `add` on collections -/

/-- The list branch of `add` is the sequence of single adds it performs,
with `enumerate`'s indices as names. -/
theorem addList_eq_addSeq (rs : List FacebookRequest) :
    ∀ (b : FacebookBatchRequest) (idx : Nat),
      b.addList rs idx =
        b.addSeq ((rs.enumFrom idx).map (fun p => (p.2, PyName.intV p.1))) := by
  induction rs with
  | nil => intro b idx; rfl
  | cons r rest ih =>
    intro b idx
    unfold FacebookBatchRequest.addList
    rw [List.enumFrom_cons]
    simp only [List.map_cons]
    unfold FacebookBatchRequest.addSeq
    cases hs : b.addSingle r (.intV idx) with
    | mk b2 e =>
      cases e with
      | none => simpa using ih b2 (idx + 1)
      | some msg => simp

/-- The dict branch of `add` is the sequence of single adds it performs,
with the keys as names. -/
theorem addDict_eq_addSeq (kvs : List (String × FacebookRequest)) :
    ∀ b : FacebookBatchRequest,
      b.addDict kvs = b.addSeq (kvs.map (fun p => (p.2, PyName.strV p.1))) := by
  induction kvs with
  | nil => intro b; rfl
  | cons kv rest ih =>
    intro b
    unfold FacebookBatchRequest.addDict
    simp only [List.map_cons]
    unfold FacebookBatchRequest.addSeq
    cases hs : b.addSingle kv.2 (.strV kv.1) with
    | mk b2 e =>
      cases e with
      | none => simpa using ih b2
      | some msg => simp

/-- A successful sequence of single adds preserves the batch token and
appends exactly one entry per add, in call order, each carrying the
stringified name and the token-resolved request. -/
theorem addSeq_requests (cmds : List (FacebookRequest × PyName)) :
    ∀ b b2 : FacebookBatchRequest, b.addSeq cmds = (b2, none) →
      b2.access_token = b.access_token ∧
      b2.requests = b.requests ++ cmds.map (fun p => (p.2.strOf, resolveToken b p.1)) := by
  induction cmds with
  | nil =>
    intro b b2 h
    unfold FacebookBatchRequest.addSeq at h
    simp only [Prod.mk.injEq] at h
    simp [h.1]
  | cons c rest ih =>
    intro b b2 h
    unfold FacebookBatchRequest.addSeq at h
    cases hs : b.addSingle c.1 c.2 with
    | mk b1 e =>
      rw [hs] at h
      cases e with
      | some msg => simp at h
      | none =>
        obtain ⟨ht, hr⟩ := ih b1 b2 (by simpa using h)
        have hb1 : b1 =
            { b with requests := b.requests ++ [(c.2.strOf, resolveToken b c.1)] } :=
          addSingle_ok b c.1 c.2 b1 hs
        have htok : b1.access_token = b.access_token := by rw [hb1]
        constructor
        · rw [ht, htok]
        · simp only [resolveToken_congr b1 b htok] at hr
          rw [hr, hb1]
          simp

/-! ## C6 -/

/-- C6: a list argument to `add` stores its elements in order with their
zero-based positions, stringified, as names; a dict argument stores its
values with their keys as names; a single request is stored under the
stringification of the provided name, the literal string "None" when no
name is given. -/
theorem add_assigns_names (b : FacebookBatchRequest) (rs : List FacebookRequest)
    (kvs : List (String × FacebookRequest)) (r : FacebookRequest) (nm : PyName) :
    (∀ b2, b.add (.list rs) nm = (b2, none) →
      b2.requests = b.requests ++ rs.enum.map (fun p => (toString p.1, resolveToken b p.2))) ∧
    (∀ b2, b.add (.dict kvs) nm = (b2, none) →
      b2.requests = b.requests ++ kvs.map (fun p => (p.1, resolveToken b p.2))) ∧
    (∀ b2, b.add (.single r) nm = (b2, none) →
      b2.requests = b.requests ++ [(nm.strOf, resolveToken b r)]) ∧
    PyName.strOf .noneV = "None" := by
  refine ⟨?_, ?_, ?_, rfl⟩
  · intro b2 h
    rw [show b.add (.list rs) nm = b.addList rs 0 from rfl,
      addList_eq_addSeq rs b 0] at h
    have := (addSeq_requests _ b b2 h).2
    rw [this, List.map_map]
    rfl
  · intro b2 h
    rw [show b.add (.dict kvs) nm = b.addDict kvs from rfl,
      addDict_eq_addSeq kvs b] at h
    have := (addSeq_requests _ b b2 h).2
    rw [this, List.map_map]
    rfl
  · intro b2 h
    rw [addSingle_ok b r nm b2 h]

/-! ## C7 -/

/-- C7: after any successful sequence of `add` calls, the batch holds one
entry per added request in call order, and `requests_to_json` serializes
exactly one descriptor per entry, the i-th descriptor coming from the i-th
stored entry, joined into a JSON array in that order. -/
theorem requests_to_json_order (b : FacebookBatchRequest)
    (cmds : List (FacebookRequest × PyName)) (b2 : FacebookBatchRequest)
    (h : b.addSeq cmds = (b2, none)) :
    b2.requests = b.requests ++ cmds.map (fun p => (p.2.strOf, resolveToken b p.1)) ∧
    b2.requestsToBatchArray.length = b.requests.length + cmds.length ∧
    (∀ i : Nat, b2.requestsToBatchArray[i]? =
      (b2.requests[i]?).map (fun e => b2.request_entity_to_batch_array e.2 (some e.1))) ∧
    b2.requests_to_json =
      "[" ++ String.intercalate ", " (b2.requestsToBatchArray.map BatchItem.toJson) ++ "]" := by
  have hreq := (addSeq_requests cmds b b2 h).2
  refine ⟨hreq, ?_, ?_, rfl⟩
  · unfold FacebookBatchRequest.requestsToBatchArray
    rw [List.length_map, hreq]
    simp
  · intro i
    unfold FacebookBatchRequest.requestsToBatchArray
    rw [List.getElem?_map]

/-- C7 witness: a concrete batch with two added requests satisfies the
ordering law. -/
theorem requests_to_json_order_witness :
    (wBatch.addSeq wCmds).1.requests =
      wBatch.requests ++ wCmds.map (fun p => (p.2.strOf, resolveToken wBatch p.1)) :=
  (requests_to_json_order wBatch wCmds (wBatch.addSeq wCmds).1 (by decide)).1

/-! ## C2 -/

theorem pairChars_ne_nil (p : String × String) : pairChars p ≠ [] := by
  unfold pairChars
  simp

theorem joinSep_cons_ne_nil (sep : Char) (g : List Char) (gs : List (List Char))
    (h : g ≠ []) : joinSep sep (g :: gs) ≠ [] := by
  cases gs with
  | nil => simpa [joinSep] using h
  | cons g2 rest =>
    unfold joinSep
    simp

theorem urlencode_ne_empty (ps : List (String × String)) (h : ps ≠ []) :
    urlencode ps ≠ "" := by
  intro he
  have hd : (urlencode ps).data = [] := by rw [he]
  cases ps with
  | nil => exact h rfl
  | cons p rest =>
    have hj : joinSep '&' (pairChars p :: rest.map pairChars) = [] := hd
    exact joinSep_cons_ne_nil '&' _ _ (pairChars_ne_nil p) hj

/-- A present `url_encode_body` is never the empty string (it is the
encoding of a non-empty params dict). -/
theorem url_encode_body_some (r : FacebookRequest) (s : String)
    (h : r.url_encode_body = some s) : s ≠ "" := by
  unfold FacebookRequest.url_encode_body at h
  cases hp : r.post_params with
  | none => rw [hp] at h; simp at h
  | some ps =>
    rw [hp] at h
    by_cases he : ps.isEmpty
    · simp [he] at h
    · simp [he] at h
      have hne : ps ≠ [] := by
        cases ps
        · simp at he
        · simp
      rw [← h]
      exact urlencode_ne_empty ps hne

/-- C2: the batch-item descriptor always carries the child's headers,
method and url (as `relative_url`); it carries `body` exactly when
`url_encode_body` is non-absent (and equal to it), `name` exactly when a
name was supplied, and `access_token` exactly when the child's token
differs from the batch's own token — equal tokens are de-duplicated by
omission (`none`), not by a null value. -/
theorem request_entity_to_batch_array_spec (b : FacebookBatchRequest)
    (r : FacebookRequest) (n : Option String) :
    (b.request_entity_to_batch_array r n).headers = r.headers ∧
    (b.request_entity_to_batch_array r n).method = r.method ∧
    (b.request_entity_to_batch_array r n).relative_url = r.url ∧
    (b.request_entity_to_batch_array r n).body = r.url_encode_body ∧
    (b.request_entity_to_batch_array r n).name = n ∧
    ((b.request_entity_to_batch_array r n).name.isSome ↔ n.isSome) ∧
    ((b.request_entity_to_batch_array r n).access_token = none ↔
      r.access_token = b.access_token) ∧
    ((b.request_entity_to_batch_array r n).access_token.isSome ↔
      r.access_token ≠ b.access_token) := by
  unfold FacebookBatchRequest.request_entity_to_batch_array
  refine ⟨rfl, rfl, rfl, ?_, rfl, Iff.rfl, ?_, ?_⟩
  · cases hu : r.url_encode_body with
    | none => simp
    | some s => simp [url_encode_body_some r s hu]
  · by_cases ht : r.access_token = b.access_token <;> simp [ht]
  · by_cases ht : r.access_token = b.access_token <;> simp [ht]

/-! ## C8 machinery -/

theorem charToNat_lt (c : Char) : c.toNat < 1114112 := by
  have h : c.val.toNat.isValidChar := c.valid
  unfold Nat.isValidChar at h
  show c.val.toNat < 1114112
  rcases h with h | ⟨h1, h2⟩
  · omega
  · omega

theorem utf8EncodeChar_ne_nil (n : Nat) : utf8EncodeChar n ≠ [] := by
  unfold utf8EncodeChar
  split
  · simp
  · split
    · simp
    · split <;> simp

theorem utf8Bytes_cons (c : Char) (cs : List Char) :
    utf8Bytes (c :: cs) = utf8EncodeChar c.toNat ++ utf8Bytes cs := by
  simp [utf8Bytes]

theorem utf8EncodeChar_lt256 (n : Nat) (h : n < 1114112) :
    ∀ b ∈ utf8EncodeChar n, b < 256 := by
  intro b hb
  unfold utf8EncodeChar at hb
  by_cases h1 : n < 128
  · rw [if_pos h1] at hb
    simp at hb
    omega
  · rw [if_neg h1] at hb
    by_cases h2 : n < 2048
    · rw [if_pos h2] at hb
      simp at hb
      rcases hb with hb | hb <;> omega
    · rw [if_neg h2] at hb
      by_cases h3 : n < 65536
      · rw [if_pos h3] at hb
        simp at hb
        rcases hb with hb | hb | hb <;> omega
      · rw [if_neg h3] at hb
        simp at hb
        rcases hb with hb | hb | hb | hb <;> omega

theorem utf8Bytes_lt256 (cs : List Char) : ∀ b ∈ utf8Bytes cs, b < 256 := by
  intro b hb
  unfold utf8Bytes at hb
  rw [List.mem_flatten] at hb
  obtain ⟨l, hl, hbl⟩ := hb
  rw [List.mem_map] at hl
  obtain ⟨c, hc, rfl⟩ := hl
  exact utf8EncodeChar_lt256 c.toNat (charToNat_lt c) b hbl

theorem utf8Bytes_length_ge (cs : List Char) : cs.length ≤ (utf8Bytes cs).length := by
  induction cs with
  | nil => simp [utf8Bytes]
  | cons c cs ih =>
    have h1 : 0 < (utf8EncodeChar c.toNat).length :=
      List.length_pos.mpr (utf8EncodeChar_ne_nil _)
    rw [utf8Bytes_cons, List.length_append, List.length_cons]
    omega

theorem utf8DecodeOne_encode (n : Nat) (h : n < 1114112) (rest : List Nat) :
    ∃ b tail, utf8EncodeChar n = b :: tail ∧
      utf8DecodeOne b (tail ++ rest) = some (n, rest) := by
  unfold utf8EncodeChar
  by_cases h1 : n < 128
  · rw [if_pos h1]
    refine ⟨n, [], rfl, ?_⟩
    unfold utf8DecodeOne
    rw [if_pos h1]
    simp
  · rw [if_neg h1]
    by_cases h2 : n < 2048
    · rw [if_pos h2]
      refine ⟨192 + n / 64, [128 + n % 64], rfl, ?_⟩
      have c1 : ¬ 192 + n / 64 < 128 := by omega
      have c2 : ¬ 192 + n / 64 < 192 := by omega
      have c3 : 192 + n / 64 < 224 := by omega
      have c4 : 128 ≤ 128 + n % 64 := by omega
      have c5 : 128 + n % 64 < 192 := by omega
      simp [utf8DecodeOne, c1, c2, c3, c4, c5]
      omega
    · by_cases h3 : n < 65536
      · rw [if_neg h2, if_pos h3]
        refine ⟨224 + n / 4096, [128 + n / 64 % 64, 128 + n % 64], rfl, ?_⟩
        have c1 : ¬ 224 + n / 4096 < 128 := by omega
        have c2 : ¬ 224 + n / 4096 < 192 := by omega
        have c3 : ¬ 224 + n / 4096 < 224 := by omega
        have c4 : 224 + n / 4096 < 240 := by omega
        have c5 : 128 ≤ 128 + n / 64 % 64 := by omega
        have c6 : 128 + n / 64 % 64 < 192 := by omega
        have c7 : 128 ≤ 128 + n % 64 := by omega
        have c8 : 128 + n % 64 < 192 := by omega
        simp [utf8DecodeOne, c1, c2, c3, c4, c5, c6, c7, c8]
        omega
      · rw [if_neg h2, if_neg h3]
        refine ⟨240 + n / 262144,
          [128 + n / 4096 % 64, 128 + n / 64 % 64, 128 + n % 64], rfl, ?_⟩
        have c1 : ¬ 240 + n / 262144 < 128 := by omega
        have c2 : ¬ 240 + n / 262144 < 192 := by omega
        have c3 : ¬ 240 + n / 262144 < 224 := by omega
        have c4 : ¬ 240 + n / 262144 < 240 := by omega
        have c5 : 240 + n / 262144 < 248 := by omega
        have c6 : 128 ≤ 128 + n / 4096 % 64 := by omega
        have c7 : 128 + n / 4096 % 64 < 192 := by omega
        have c8 : 128 ≤ 128 + n / 64 % 64 := by omega
        have c9 : 128 + n / 64 % 64 < 192 := by omega
        have c10 : 128 ≤ 128 + n % 64 := by omega
        have c11 : 128 + n % 64 < 192 := by omega
        simp [utf8DecodeOne, c1, c2, c3, c4, c5, c6, c7, c8, c9, c10, c11]
        omega

theorem utf8DecodeAux_bytes (cs : List Char) :
    ∀ fuel, cs.length ≤ fuel →
      utf8DecodeAux fuel (utf8Bytes cs) = some (cs.map Char.toNat) := by
  induction cs with
  | nil =>
    intro fuel _
    show utf8DecodeAux fuel [] = some []
    cases fuel <;> rfl
  | cons c cs ih =>
    intro fuel hf
    obtain ⟨f, rfl⟩ : ∃ f, fuel = f + 1 := by
      cases fuel
      · simp at hf
      · exact ⟨_, rfl⟩
    obtain ⟨b, tail, he, hd⟩ := utf8DecodeOne_encode c.toNat (charToNat_lt c) (utf8Bytes cs)
    rw [utf8Bytes_cons, he, List.cons_append]
    rw [utf8DecodeAux]
    simp only [hd]
    rw [ih f (by simpa using hf)]
    rfl

theorem utf8DecodeList_bytes (cs : List Char) :
    utf8DecodeList (utf8Bytes cs) = some (cs.map Char.toNat) :=
  utf8DecodeAux_bytes cs _ (utf8Bytes_length_ge cs)

set_option maxRecDepth 4096 in
theorem safeByte_facts : ∀ b : Nat, b < 256 → isSafeByte b = true →
    (Char.ofNat b ≠ '+' ∧ Char.ofNat b ≠ '%' ∧ (Char.ofNat b).toNat = b) := by decide

theorem hexVal_hexUpper : ∀ d : Nat, d < 16 → hexVal (hexUpper d) = some d := by decide

set_option maxRecDepth 4096 in
theorem quoteByte_no_sep : ∀ b : Nat, b < 256 → ∀ c ∈ quoteByte b,
    c ≠ '&' ∧ c ≠ '=' := by decide

theorem quoteByte_ne_nil (b : Nat) : quoteByte b ≠ [] := by
  unfold quoteByte
  split
  · simp
  · split <;> simp

theorem unquoteOne_quoteByte (b : Nat) (hb : b < 256) (rest : List Char) :
    ∃ c tail, quoteByte b = c :: tail ∧
      unquoteOne c (tail ++ rest) = some (b, rest) := by
  unfold quoteByte
  by_cases hs : isSafeByte b = true
  · obtain ⟨h1, h2, h3⟩ := safeByte_facts b hb hs
    rw [if_pos hs]
    refine ⟨Char.ofNat b, [], rfl, ?_⟩
    simp [unquoteOne, h1, h2, h3]
  · rw [if_neg hs]
    by_cases h32 : b = 32
    · subst h32
      refine ⟨'+', [], by simp, ?_⟩
      simp [unquoteOne]
    · have hd1 : hexVal (hexUpper (b / 16)) = some (b / 16) :=
        hexVal_hexUpper (b / 16) (by omega)
      have hd2 : hexVal (hexUpper (b % 16)) = some (b % 16) :=
        hexVal_hexUpper (b % 16) (by omega)
      have h32e : (b == 32) = false := by simp [h32]
      rw [h32e]
      refine ⟨'%', [hexUpper (b / 16), hexUpper (b % 16)], by simp, ?_⟩
      have harith : 16 * (b / 16) + b % 16 = b := by omega
      simp [unquoteOne, hd1, hd2, harith]

theorem quotePlusList_length_ge (bs : List Nat) :
    bs.length ≤ ((bs.map quoteByte).flatten).length := by
  induction bs with
  | nil => simp
  | cons b bs ih =>
    have h1 : 0 < (quoteByte b).length := List.length_pos.mpr (quoteByte_ne_nil b)
    simp only [List.map_cons, List.flatten_cons, List.length_append, List.length_cons]
    omega

theorem unquoteAux_quote (bs : List Nat) :
    ∀ fuel, (∀ b ∈ bs, b < 256) → bs.length ≤ fuel →
      unquoteAux fuel ((bs.map quoteByte).flatten) = some bs := by
  induction bs with
  | nil =>
    intro fuel _ _
    show unquoteAux fuel [] = some []
    cases fuel <;> rfl
  | cons b bs ih =>
    intro fuel hlt hf
    obtain ⟨f, rfl⟩ : ∃ f, fuel = f + 1 := by
      cases fuel
      · simp at hf
      · exact ⟨_, rfl⟩
    obtain ⟨c, tail, he, hd⟩ :=
      unquoteOne_quoteByte b (hlt b (by simp)) ((bs.map quoteByte).flatten)
    simp only [List.map_cons, List.flatten_cons]
    rw [he, List.cons_append]
    rw [unquoteAux]
    simp only [hd]
    rw [ih f (fun x hx => hlt x (by simp [hx])) (by simpa using hf)]
    rfl

theorem unquote_plus_quote_plus (s : String) :
    unquote_plus (quote_plus s) = some s := by
  unfold unquote_plus quote_plus
  have hb : ∀ b ∈ utf8Bytes s.data, b < 256 := utf8Bytes_lt256 s.data
  have h1 : unquoteBytes (quotePlusChars s.data) = some (utf8Bytes s.data) := by
    unfold unquoteBytes quotePlusChars
    exact unquoteAux_quote (utf8Bytes s.data) _ hb (quotePlusList_length_ge _)
  have h1x : unquoteBytes (String.mk (quotePlusChars s.data)).data =
      some (utf8Bytes s.data) := h1
  simp only [h1x, utf8DecodeList_bytes]
  have h2 : (s.data.map Char.toNat).map Char.ofNat = s.data := by
    rw [List.map_map]
    have hcomp : (Char.ofNat ∘ Char.toNat) = id := funext Char.ofNat_toNat
    rw [hcomp, List.map_id]
  rw [h2]

theorem splitSep_ne_nil (sep : Char) (l : List Char) : splitSep sep l ≠ [] := by
  cases l with
  | nil => simp [splitSep]
  | cons c cs =>
    rw [splitSep]
    split
    · simp
    · split_ifs <;> simp

theorem splitSep_append (sep : Char) (s : List Char) (g : List Char)
    (gs : List (List Char)) (hs : sep ∉ s) :
    ∀ l : List Char, splitSep sep l = g :: gs →
      splitSep sep (s ++ l) = (s ++ g) :: gs := by
  induction s with
  | nil => intro l hl; simpa using hl
  | cons c s ih =>
    intro l hl
    have hc : ¬ c = sep := by
      intro e
      exact hs (by simp [e])
    have hs2 : sep ∉ s := fun m => hs (List.mem_cons_of_mem _ m)
    rw [List.cons_append, splitSep, ih hs2 l hl]
    simp [hc]

theorem splitSep_cons_self (sep : Char) (l : List Char) :
    splitSep sep (sep :: l) = [] :: splitSep sep l := by
  rw [splitSep]
  cases hs : splitSep sep l with
  | nil => exact absurd hs (splitSep_ne_nil sep l)
  | cons g gs => simp

theorem splitSep_joinSep (sep : Char) (gl : List (List Char)) (hne : gl ≠ [])
    (hfree : ∀ g ∈ gl, sep ∉ g) : splitSep sep (joinSep sep gl) = gl := by
  induction gl with
  | nil => exact absurd rfl hne
  | cons g gl ih =>
    cases gl with
    | nil =>
      have h0 : splitSep sep ([] : List Char) = [] :: [] := rfl
      have h2 := splitSep_append sep g [] [] (hfree g (by simp)) [] h0
      simpa [joinSep] using h2
    | cons g2 gl2 =>
      have hfree2 : ∀ x ∈ g2 :: gl2, sep ∉ x := fun x hx => hfree x (by simp [hx])
      have ih2 := ih (by simp) hfree2
      have h1 : splitSep sep (sep :: joinSep sep (g2 :: gl2)) = [] :: g2 :: gl2 := by
        rw [splitSep_cons_self, ih2]
      have h2 := splitSep_append sep g [] (g2 :: gl2) (hfree g (by simp)) _ h1
      show splitSep sep (g ++ sep :: joinSep sep (g2 :: gl2)) = g :: g2 :: gl2
      simpa using h2

theorem splitFirst_append (k v : List Char) (hk : '=' ∉ k) :
    splitFirst '=' (k ++ '=' :: v) = some (k, v) := by
  induction k with
  | nil => simp [splitFirst]
  | cons c k ih =>
    have hc : ¬ c = '=' := by
      intro e
      exact hk (by simp [e])
    have hk2 : '=' ∉ k := fun m => hk (List.mem_cons_of_mem _ m)
    rw [List.cons_append, splitFirst, ih hk2]
    simp [hc]

theorem quotePlusChars_no_sep (cs : List Char) :
    ∀ c ∈ quotePlusChars cs, c ≠ '&' ∧ c ≠ '=' := by
  intro c hc
  unfold quotePlusChars at hc
  rw [List.mem_flatten] at hc
  obtain ⟨l, hl, hcl⟩ := hc
  rw [List.mem_map] at hl
  obtain ⟨b, hb, rfl⟩ := hl
  exact quoteByte_no_sep b (utf8Bytes_lt256 cs b hb) c hcl

theorem pairChars_no_amp (p : String × String) : '&' ∉ pairChars p := by
  intro hc
  unfold pairChars at hc
  rw [List.mem_append] at hc
  rcases hc with hc | hc
  · exact (quotePlusChars_no_sep _ '&' hc).1 rfl
  · rw [List.mem_cons] at hc
    rcases hc with hc | hc
    · exact absurd hc (by decide)
    · exact (quotePlusChars_no_sep _ '&' hc).1 rfl

theorem decodePair_pairChars (p : String × String) :
    decodePair (pairChars p) = some p := by
  unfold decodePair pairChars
  have hk : '=' ∉ quotePlusChars p.1.data :=
    fun m => (quotePlusChars_no_sep _ '=' m).2 rfl
  rw [splitFirst_append _ _ hk]
  have h1 : unquote_plus ⟨quotePlusChars p.1.data⟩ = some p.1 := unquote_plus_quote_plus p.1
  have h2 : unquote_plus ⟨quotePlusChars p.2.data⟩ = some p.2 := unquote_plus_quote_plus p.2
  simp [h1, h2]

theorem mapM_decodePair (ps : List (String × String)) :
    (ps.map pairChars).mapM decodePair = some ps := by
  induction ps with
  | nil => rfl
  | cons p ps ih =>
    rw [List.map_cons, List.mapM_cons, decodePair_pairChars, ih]
    rfl

theorem decodeQS_urlencode (ps : List (String × String)) (h : ps ≠ []) :
    decodeQS (urlencode ps) = some ps := by
  show (splitSep '&' (joinSep '&' (ps.map pairChars))).mapM decodePair = some ps
  have hfree : ∀ g ∈ ps.map pairChars, '&' ∉ g := by
    intro g hg
    rw [List.mem_map] at hg
    obtain ⟨p, hp, rfl⟩ := hg
    exact pairChars_no_amp p
  rw [splitSep_joinSep '&' (ps.map pairChars) (by simp [h]) hfree]
  exact mapM_decodePair ps

/-! ## C8 -/

/-- C8: `url_encode_body` is absent whenever `post_params` is absent or the
stored params are empty; otherwise it is a form-encoded `k=v&...` string
whose decoding recovers exactly the original key/value pairs. -/
theorem url_encode_body_roundtrip (r : FacebookRequest) :
    ((r.post_params = none ∨ r._params = []) → r.url_encode_body = none) ∧
    (r.method = METHOD_POST → r._params ≠ [] → (r._params.map Prod.fst).Nodup →
      ∃ s, r.url_encode_body = some s ∧ decodeQS s = some r._params) := by
  constructor
  · rintro (h | h)
    · unfold FacebookRequest.url_encode_body
      rw [h]
    · unfold FacebookRequest.url_encode_body FacebookRequest.post_params
      by_cases hm : r.method = METHOD_POST <;> simp [hm, h]
  · intro hm hne _hnd
    refine ⟨urlencode r._params, ?_, decodeQS_urlencode r._params hne⟩
    unfold FacebookRequest.url_encode_body FacebookRequest.post_params
    simp [hm, hne]

end FacebookSDK
